import Mathlib

/-!
Shallow embedding of the mcutils region codec (src/lib.rs, src/main.rs,
src/args.rs): the binary region file format, its writer and streaming
reader, header validation, the index-to-offset flattening order, and the
CLI coordinate grammar.  Machine integers are modelled as Nat (u16/u32)
and Int (i32) with explicit wrapping where the source can overflow.
-/

/-- Two's-complement reinterpretation of a u32 bit pattern as an i32 value,
as performed by a Rust `u32 as i32` cast and by `i32::from_le_bytes`. -/
def i32ofU32 (n : Nat) : Int :=
  if n < 2147483648 then (n : Int) else (n : Int) - 4294967296

/-- Little-endian byte list of a u16 value, as `u16::to_le_bytes`. -/
def toLe2 (v : Nat) : List Nat :=
  [v % 256, v / 256 % 256]

/-- Little-endian byte list of a u32 value, as `u32::to_le_bytes`. -/
def toLe4 (v : Nat) : List Nat :=
  [v % 256, v / 256 % 256, v / 65536 % 256, v / 16777216 % 256]

/-- Little-endian byte list of an i32 value (two's complement), as
`i32::to_le_bytes`. -/
def toLe4i (v : Int) : List Nat :=
  toLe4 (v % 4294967296).toNat

/-- Wrap an integer into the i32 range, the two's-complement semantics of
Rust i32 arithmetic. -/
def wrapI32 (v : Int) : Int :=
  (v + 2147483648) % 4294967296 - 2147483648

/-- Absolute world position: three i32 components (mcrs `Coordinate`;
modelled from the spec data model, section 3). -/
structure Coordinate where
  x : Int
  y : Int
  z : Int
  deriving DecidableEq

/-- Region extents: three u32 components (mcrs `Size`; modelled from the
spec data model, section 3). -/
structure Size where
  x : Nat
  y : Nat
  z : Nat
  deriving DecidableEq

/-- One block record: id and modifier, both u32 (mcrs `Block`). -/
structure Block where
  id : Nat
  modifier : Nat
  deriving DecidableEq

/-- A displacement within a region: three u32 components, produced by the
flattening map. -/
structure Offset where
  x : Nat
  y : Nat
  z : Nat
  deriving DecidableEq

/-- Modelled from the spec: mcrs `Coordinate` addition is componentwise;
i32 components wrap in two's complement. -/
def Coordinate.add (a b : Coordinate) : Coordinate :=
  ⟨wrapI32 (a.x + b.x), wrapI32 (a.y + b.y), wrapI32 (a.z + b.z)⟩

/-- Reinterpret an offset as a coordinate, each u32 component cast
`as i32` (src/main.rs line 161). -/
def Offset.toCoordinate (o : Offset) : Coordinate :=
  ⟨i32ofU32 (o.x % 4294967296), i32ofU32 (o.y % 4294967296), i32ofU32 (o.z % 4294967296)⟩

/-- Volume of a region, `size.x * size.y * size.z` (spec section 3). -/
def Size.volume (s : Size) : Nat :=
  s.x * s.y * s.z

/-- The flattening map from a record index to an offset, as computed in
src/main.rs lines 158-160 (and, per spec section 4.1, by mcrs
`Size::index_to_offset` used in src/lib.rs line 89):
y outermost, x middle, z innermost.  Pure on Nat; the caller of the u32
version panics when `size.x` or `size.z` is zero, which the reader step
models separately. -/
def Size.index_to_offset (size : Size) (i : Nat) : Offset :=
  ⟨i / size.z % size.x, i / size.x / size.z, i % size.z⟩

/-- File format signature constant (src/lib.rs line 7, src/main.rs line 95). -/
def MAGIC_NUMBER : Nat := 0xa3f9

/-- File format version constant (src/lib.rs line 8, src/main.rs line 96). -/
def VERSION : Nat := 0x0100

/-- Modelled from the spec: mcrs `ChunkStream`, the ordered block source the
writer consumes -- it exposes `origin()`, `size()`, and yields its blocks one
at a time in the shared flattening order (spec sections 4.1 and 4.3). -/
structure ChunkStream where
  origin : Coordinate
  size : Size
  blocks : List Block
  deriving DecidableEq

/-- The writer's record loop (src/lib.rs lines 22-25): while the source
yields a block, append its id bytes then its modifier bytes to the sink. -/
def writeLoop : List Nat → List Block → List Nat
  | file, [] => file
  | file, b :: bs => writeLoop (file ++ toLe4 b.id ++ toLe4 b.modifier) bs

/-- The writer, src/lib.rs `write_data` lines 10-28: sequential `write_all`
calls appending signature, version, origin, size, then the record loop. -/
def write_data (chunk : ChunkStream) : List Nat :=
  let file : List Nat := []
  let file := file ++ toLe2 MAGIC_NUMBER
  let file := file ++ toLe2 VERSION
  let file := file ++ toLe4i chunk.origin.x
  let file := file ++ toLe4i chunk.origin.y
  let file := file ++ toLe4i chunk.origin.z
  let file := file ++ toLe4 chunk.size.x
  let file := file ++ toLe4 chunk.size.y
  let file := file ++ toLe4 chunk.size.z
  writeLoop file chunk.blocks

/-- The header layout stated by the spec (section 4.2): signature, version,
origin components as i32, size components as u32, little-endian.  The spec
calls it a 20-byte header, but the fields sum to 28 bytes. -/
def headerBytes (origin : Coordinate) (size : Size) : List Nat :=
  toLe2 MAGIC_NUMBER ++ toLe2 VERSION ++
    toLe4i origin.x ++ toLe4i origin.y ++ toLe4i origin.z ++
    toLe4 size.x ++ toLe4 size.y ++ toLe4 size.z

/-- The 8-byte body record layout stated by the spec: id then modifier,
little-endian. -/
def recordBytes (b : Block) : List Nat :=
  toLe4 b.id ++ toLe4 b.modifier

/-- src/lib.rs `read_u16` lines 110-114: `read_exact` of 2 bytes, little
endian; fails (io UnexpectedEof) when fewer than 2 bytes remain. -/
def read_u16 : List Nat → Option (Nat × List Nat)
  | b0 :: b1 :: rest => some (b0 + 256 * b1, rest)
  | _ => none

/-- src/lib.rs `read_u32` lines 122-126: `read_exact` of 4 bytes, little
endian; fails (io UnexpectedEof) when fewer than 4 bytes remain. -/
def read_u32 : List Nat → Option (Nat × List Nat)
  | b0 :: b1 :: b2 :: b3 :: rest =>
      some (b0 + 256 * b1 + 65536 * b2 + 16777216 * b3, rest)
  | _ => none

/-- src/lib.rs `read_i32` lines 116-120: `read_exact` of 4 bytes interpreted
as a two's-complement i32. -/
def read_i32 (input : List Nat) : Option (Int × List Nat) :=
  match read_u32 input with
  | none => none
  | some (n, rest) => some (i32ofU32 n, rest)

/-- Errors of the library header check, src/lib.rs `check_data_metadata`
lines 96-108: `ioEof` models a `read_exact` failure, the other three are the
`bail!` sites in source order ("Invalid file format (signature does not
match)", "Outdated file format ...", "Outdated program ..."); they are the
spec's FormatMismatch / OutdatedFile / OutdatedProgram taxonomy. -/
inductive DataMetaError where
  | ioEof
  | invalidFormat
  | outdatedFile
  | outdatedProgram
  deriving DecidableEq

/-- src/lib.rs `check_data_metadata` lines 96-108: read the signature, reject
on mismatch; read the version, reject when below or above the constant;
otherwise succeed with the rest of the stream. -/
def check_data_metadata (input : List Nat) : Except DataMetaError (List Nat) :=
  match read_u16 input with
  | none => .error .ioEof
  | some (magic_number, rest) =>
    if magic_number ≠ MAGIC_NUMBER then .error .invalidFormat
    else match read_u16 rest with
      | none => .error .ioEof
      | some (version, rest2) =>
        if version < VERSION then .error .outdatedFile
        else if version > VERSION then .error .outdatedProgram
        else .ok rest2

/-- The streaming reader state, src/lib.rs `BlockReader` lines 46-51: the
remaining byte stream, the record index (a u32 in source, kept below 2^32 by
the wrapping increment), and the origin and size captured at construction. -/
structure BlockReader where
  reader : List Nat
  index : Nat
  origin : Coordinate
  size : Size
  deriving DecidableEq

/-- src/lib.rs `BlockReader::new` lines 54-61: index starts at zero. -/
def BlockReader.new (reader : List Nat) (origin : Coordinate) (size : Size) :
    BlockReader :=
  ⟨reader, 0, origin, size⟩

/-- src/lib.rs `BlockReader::bound` lines 69-71: `origin + size`.  Modelled
from the spec: mcrs adds a Size to a Coordinate componentwise (section 3),
with i32 wrapping. -/
def BlockReader.bound (s : BlockReader) : Coordinate :=
  ⟨wrapI32 (s.origin.x + s.size.x), wrapI32 (s.origin.y + s.size.y),
    wrapI32 (s.origin.z + s.size.z)⟩

/-- src/lib.rs `read_data` lines 30-44: header check, then origin (three
i32) and size (three u32), then the block reader over the remaining bytes. -/
def read_data (input : List Nat) : Except DataMetaError BlockReader :=
  match check_data_metadata input with
  | .error e => .error e
  | .ok r0 =>
    match read_i32 r0 with
    | none => .error .ioEof
    | some (x, r1) =>
      match read_i32 r1 with
      | none => .error .ioEof
      | some (y, r2) =>
        match read_i32 r2 with
        | none => .error .ioEof
        | some (z, r3) =>
          let origin : Coordinate := ⟨x, y, z⟩
          match read_u32 r3 with
          | none => .error .ioEof
          | some (sx, r4) =>
            match read_u32 r4 with
            | none => .error .ioEof
            | some (sy, r5) =>
              match read_u32 r5 with
              | none => .error .ioEof
              | some (sz, r6) =>
                .ok (BlockReader.new r6 origin ⟨sx, sy, sz⟩)

/-- Body errors of one reader step: `truncatedData` is the
"Truncated data in file" `bail!` of `try_read_u32` (src/lib.rs line 135,
a 1-3 byte read of the id); `unexpectedEof` is the io error of the
`read_exact` inside `read_u32` for the modifier (src/lib.rs line 112 via
line 83). -/
inductive BodyError where
  | truncatedData
  | unexpectedEof
  deriving DecidableEq

/-- Outcome of one reader step (src/lib.rs `next` lines 77-93): an item, the
natural end of stream (`None`), an error, or `divByZero` -- the Rust panic
raised by the u32 divisions of the offset formula when `size.x` or `size.z`
is zero. -/
inductive Step where
  | item (c : Coordinate) (b : Block)
  | done
  | error (e : BodyError)
  | divByZero
  deriving DecidableEq

/-- One step of the reader, src/lib.rs `Iterator::next` lines 77-93 (the
binary's reader, src/main.rs lines 146-165, is structurally identical, with
the offset formula inlined and io error payloads):
`try_read_u32` for the id (empty stream means end, a 1-3 byte fragment is an
error), `read_u32` for the modifier (a short read is an error; `read_exact`
consumes what was available), then the coordinate from the flattening map
(u32 divisions: divisor zero is a Rust panic), then the index increments
with u32 wrapping. -/
def BlockReader.next (s : BlockReader) : Step × BlockReader :=
  match s.reader with
  | [] => (.done, s)
  | b0 :: b1 :: b2 :: b3 :: rest1 =>
    match rest1 with
    | c0 :: c1 :: c2 :: c3 :: rest2 =>
      if s.size.x = 0 ∨ s.size.z = 0 then
        (.divByZero, { s with reader := rest2 })
      else
        let id := b0 + 256 * b1 + 65536 * b2 + 16777216 * b3
        let modifier := c0 + 256 * c1 + 65536 * c2 + 16777216 * c3
        let coordinate :=
          s.origin.add ((s.size.index_to_offset s.index).toCoordinate)
        (.item coordinate ⟨id, modifier⟩,
          { s with reader := rest2, index := (s.index + 1) % 4294967296 })
    | _ => (.error .unexpectedEof, { s with reader := [] })
  | _ => (.error .truncatedData, { s with reader := [] })

/-- Drive the reader: collect the items of successive steps until a step
produces no item, returning the items and the final step outcome.  Fuel
bounds the recursion; any fuel of at least one more than the item count
gives the exact trace. -/
def runReader : Nat → BlockReader → List (Coordinate × Block) × Step
  | 0, _ => ([], .done)
  | fuel + 1, s =>
    match s.next with
    | (.item c b, s2) =>
      let p := runReader fuel s2
      ((c, b) :: p.1, p.2)
    | (r, _) => ([], r)

/-- The full decoded trace of a reader: enough fuel for every record the
remaining bytes could hold. -/
def readAll (s : BlockReader) : List (Coordinate × Block) × Step :=
  runReader (s.reader.length + 1) s

/-- The reader state after a given number of steps. -/
def nextN : Nat → BlockReader → BlockReader
  | 0, s => s
  | n + 1, s => nextN n s.next.2

/-- The (coordinate, block) sequence of an ordered block source starting at
a given record index: each block positioned at the origin plus the
flattening offset of its index.  Modelled from the spec (sections 4.1 and
4.3): the source order coincides with the flattening order. -/
def pairsFrom (origin : Coordinate) (size : Size) : Nat → List Block →
    List (Coordinate × Block)
  | _, [] => []
  | i, b :: bs =>
    (origin.add ((size.index_to_offset i).toCoordinate), b) ::
      pairsFrom origin size (i + 1) bs

/-- The (coordinate, block) sequence of a chunk source, from index zero. -/
def ChunkStream.pairs (c : ChunkStream) : List (Coordinate × Block) :=
  pairsFrom c.origin c.size 0 c.blocks

/-- Outcome of the binary's header check, src/main.rs `check_metadata`
lines 184-196: success, an io error from `read_exact`, or `abort` -- a Rust
`panic` with the given message, which aborts the process. -/
inductive MetaCheck where
  | ok (rest : List Nat)
  | ioError
  | abort (msg : String)
  deriving DecidableEq

/-- src/main.rs `check_metadata` lines 184-196: same reads and comparisons
as the library check, but every rejection is a process-aborting panic. -/
def check_metadata (input : List Nat) : MetaCheck :=
  match read_u16 input with
  | none => .ioError
  | some (magic_number, rest) =>
    if magic_number ≠ MAGIC_NUMBER then .abort "Invalid file format"
    else match read_u16 rest with
      | none => .ioError
      | some (version, rest2) =>
        if version < VERSION then .abort "Outdated file format"
        else if version > VERSION then .abort "Outdated program"
        else .ok rest2

/-- The concrete region of the spec scenario: origin (10, 20, 30), size
(x = 2, y = 1, z = 2), blocks 1 to 4 with modifier 0. -/
def chunkC3 : ChunkStream :=
  ⟨⟨10, 20, 30⟩, ⟨2, 1, 2⟩, [⟨1, 0⟩, ⟨2, 0⟩, ⟨3, 0⟩, ⟨4, 0⟩]⟩

/-- Rust `str::split(',')` on a character list: the comma-separated parts,
in order; the empty string yields one empty part. -/
def splitComma : List Char → List (List Char)
  | [] => [[]]
  | c :: rest =>
    if c = ',' then [] :: splitComma rest
    else
      match splitComma rest with
      | [] => [[c]]
      | p :: ps => (c :: p) :: ps

/-- Numeric value of an ASCII digit. -/
def digitVal (c : Char) : Option Nat :=
  if 48 ≤ c.toNat ∧ c.toNat ≤ 57 then some (c.toNat - 48) else none

/-- Accumulate a decimal digit string; fails on any non-digit. -/
def digitsVal : Nat → List Char → Option Nat
  | acc, [] => some acc
  | acc, c :: rest =>
    match digitVal c with
    | none => none
    | some d => digitsVal (acc * 10 + d) rest

/-- The magnitude of a nonempty all-digit string. -/
def parseMagnitude (s : List Char) : Option Nat :=
  match s with
  | [] => none
  | _ => digitsVal 0 s

/-- Rust `str::parse::<i32>`: an optional sign followed by one or more
ASCII digits, rejected when the value overflows the i32 range. -/
def parseI32 (s : List Char) : Option Int :=
  match s with
  | [] => none
  | c :: rest =>
    if c = '-' then
      match parseMagnitude rest with
      | none => none
      | some n => if n ≤ 2147483648 then some (-(n : Int)) else none
    else
      let t := if c = '+' then rest else s
      match parseMagnitude t with
      | none => none
      | some n => if n ≤ 2147483647 then some (n : Int) else none

/-- src/args.rs `parse_coordinate` lines 61-73 (identical in src/main.rs
lines 40-52): split on commas, pull the first three parts from the
iterator, parse each as an i32, and fail if any pull or parse fails.  Parts
beyond the third are never pulled. -/
def parse_coordinate (arg : List Char) : Option Coordinate :=
  let parts := splitComma arg
  match (parts[0]?).bind parseI32, (parts[1]?).bind parseI32,
      (parts[2]?).bind parseI32 with
  | some x, some y, some z => some ⟨x, y, z⟩
  | _, _, _ => none

/-- Reconstruction identity behind the flattening order: the index is
recovered from its offset digits. -/
lemma index_recon (x z i : Nat) :
    i / (x * z) * (x * z) + i / z % x * z + i % z = i := by
  have hxz : i / (x * z) = i / z / x := by
    rw [Nat.div_div_eq_div_mul, Nat.mul_comm]
  have h1 : z * (i / z) + i % z = i := Nat.div_add_mod i z
  have h2 : x * (i / z / x) + i / z % x = i / z := Nat.div_add_mod (i / z) x
  rw [hxz]
  calc i / z / x * (x * z) + i / z % x * z + i % z
      = z * (x * (i / z / x) + i / z % x) + i % z := by ring
    _ = z * (i / z) + i % z := by rw [h2]
    _ = i := h1

/-- The y component of the offset is the index divided by `x * z`. -/
lemma index_to_offset_y_eq (s : Size) (i : Nat) :
    (s.index_to_offset i).y = i / (s.x * s.z) := by
  simp [Size.index_to_offset, Nat.div_div_eq_div_mul]

/-- C2: for every Size, the flattening map restricted to indices below the
volume lands in the cuboid, is injective there, and covers every offset of
the cuboid: a bijection between the index range and the cuboid. -/
theorem C2_index_to_offset_bijection (s : Size) :
    (∀ i, i < s.volume →
      (s.index_to_offset i).x < s.x ∧ (s.index_to_offset i).y < s.y ∧
        (s.index_to_offset i).z < s.z) ∧
    (∀ i j, i < s.volume → j < s.volume →
      s.index_to_offset i = s.index_to_offset j → i = j) ∧
    (∀ o : Offset, o.x < s.x → o.y < s.y → o.z < s.z →
      ∃ i, i < s.volume ∧ s.index_to_offset i = o) := by
  refine ⟨?_, ?_, ?_⟩
  · intro i hi
    have hx : 0 < s.x := by
      rcases Nat.eq_zero_or_pos s.x with h | h
      · simp [Size.volume, h] at hi
      · exact h
    have hy : 0 < s.y := by
      rcases Nat.eq_zero_or_pos s.y with h | h
      · simp [Size.volume, h] at hi
      · exact h
    have hz : 0 < s.z := by
      rcases Nat.eq_zero_or_pos s.z with h | h
      · simp [Size.volume, h] at hi
      · exact h
    refine ⟨Nat.mod_lt _ hx, ?_, Nat.mod_lt _ hz⟩
    rw [index_to_offset_y_eq]
    have hxz : 0 < s.x * s.z := Nat.mul_pos hx hz
    rw [Nat.div_lt_iff_lt_mul hxz]
    calc i < s.volume := hi
      _ = s.y * (s.x * s.z) := by simp [Size.volume]; ring
  · intro i j hi hj heq
    have hyi := congrArg Offset.y heq
    have hxi := congrArg Offset.x heq
    have hzi := congrArg Offset.z heq
    rw [index_to_offset_y_eq, index_to_offset_y_eq] at hyi
    simp only [Size.index_to_offset] at hxi hzi
    calc i = i / (s.x * s.z) * (s.x * s.z) + i / s.z % s.x * s.z + i % s.z :=
          (index_recon s.x s.z i).symm
      _ = j / (s.x * s.z) * (s.x * s.z) + j / s.z % s.x * s.z + j % s.z := by
          rw [hyi, hxi, hzi]
      _ = j := index_recon s.x s.z j
  · intro o hox hoy hoz
    have hx : 0 < s.x := Nat.pos_of_ne_zero fun h => by simp [h] at hox
    have hz : 0 < s.z := Nat.pos_of_ne_zero fun h => by simp [h] at hoz
    have hxz : 0 < s.x * s.z := Nat.mul_pos hx hz
    refine ⟨o.y * (s.x * s.z) + o.x * s.z + o.z, ?_, ?_⟩
    · have hrem : o.x * s.z + o.z < s.x * s.z := by
        calc o.x * s.z + o.z < o.x * s.z + s.z := by omega
          _ = (o.x + 1) * s.z := by ring
          _ ≤ s.x * s.z := Nat.mul_le_mul_right _ (by omega)
      calc o.y * (s.x * s.z) + o.x * s.z + o.z
          < o.y * (s.x * s.z) + s.x * s.z := by omega
        _ = (o.y + 1) * (s.x * s.z) := by ring
        _ ≤ s.y * (s.x * s.z) := Nat.mul_le_mul_right _ (by omega)
        _ = s.volume := by simp [Size.volume]; ring
    · have hdivz : (o.y * (s.x * s.z) + o.x * s.z + o.z) / s.z = o.y * s.x + o.x := by
        have harr : o.y * (s.x * s.z) + o.x * s.z + o.z
            = s.z * (o.y * s.x + o.x) + o.z := by ring
        rw [harr, Nat.mul_add_div hz, Nat.div_eq_of_lt hoz]
        omega
      have hmodz : (o.y * (s.x * s.z) + o.x * s.z + o.z) % s.z = o.z := by
        have harr : o.y * (s.x * s.z) + o.x * s.z + o.z
            = s.z * (o.y * s.x + o.x) + o.z := by ring
        rw [harr, Nat.mul_add_mod, Nat.mod_eq_of_lt hoz]
      have hdivxz : (o.y * (s.x * s.z) + o.x * s.z + o.z) / (s.x * s.z) = o.y := by
        have harr : o.y * (s.x * s.z) + o.x * s.z + o.z
            = s.x * s.z * o.y + (o.x * s.z + o.z) := by ring
        have hrem : o.x * s.z + o.z < s.x * s.z := by
          calc o.x * s.z + o.z < o.x * s.z + s.z := by omega
            _ = (o.x + 1) * s.z := by ring
            _ ≤ s.x * s.z := Nat.mul_le_mul_right _ (by omega)
        rw [harr, Nat.mul_add_div hxz, Nat.div_eq_of_lt hrem]
        omega
      have hyy : (o.y * (s.x * s.z) + o.x * s.z + o.z) / s.x / s.z = o.y := by
        rw [Nat.div_div_eq_div_mul]
        exact hdivxz
      have hxx : (o.y * (s.x * s.z) + o.x * s.z + o.z) / s.z % s.x = o.x := by
        rw [hdivz]
        calc (o.y * s.x + o.x) % s.x = (s.x * o.y + o.x) % s.x := by ring_nf
          _ = o.x % s.x := Nat.mul_add_mod _ _ _
          _ = o.x := Nat.mod_eq_of_lt hox
      simp only [Size.index_to_offset]
      cases o
      simp_all

/-- Witness for C2: the bijection theorem applied to the concrete size
(2, 3, 2), producing the index of the offset (1, 2, 1). -/
theorem C2_index_to_offset_bijection_witness :
    ∃ i, i < (Size.mk 2 3 2).volume ∧
      (Size.mk 2 3 2).index_to_offset i = Offset.mk 1 2 1 :=
  (C2_index_to_offset_bijection (Size.mk 2 3 2)).2.2 (Offset.mk 1 2 1)
    (by decide) (by decide) (by decide)

/-- A u16 value below 2^16 survives the little-endian byte round trip. -/
lemma read_u16_toLe2 (v : Nat) (h : v < 65536) (rest : List Nat) :
    read_u16 (toLe2 v ++ rest) = some (v, rest) := by
  have hv : v % 256 + 256 * (v / 256 % 256) = v := by omega
  simp [toLe2, read_u16, hv]

/-- A u32 value below 2^32 survives the little-endian byte round trip. -/
lemma read_u32_toLe4 (v : Nat) (h : v < 4294967296) (rest : List Nat) :
    read_u32 (toLe4 v ++ rest) = some (v, rest) := by
  have hv : v % 256 + 256 * (v / 256 % 256) + 65536 * (v / 65536 % 256) +
      16777216 * (v / 16777216 % 256) = v := by omega
  simp [toLe4, read_u32, hv]

/-- An i32 value in range survives the two's-complement byte round trip. -/
lemma read_i32_toLe4i (v : Int) (h1 : -2147483648 ≤ v) (h2 : v < 2147483648)
    (rest : List Nat) :
    read_i32 (toLe4i v ++ rest) = some (v, rest) := by
  have hn : (v % 4294967296).toNat < 4294967296 := by omega
  unfold toLe4i read_i32
  rw [read_u32_toLe4 _ hn]
  have hv : i32ofU32 (v % 4294967296).toNat = v := by
    unfold i32ofU32
    split <;> omega
  simp [hv]

/-- Unfolding the writer's record loop: it appends the record bytes of each
block, in order, to the sink. -/
lemma writeLoop_eq (bs : List Block) : ∀ file : List Nat,
    writeLoop file bs = file ++ (bs.map recordBytes).flatten := by
  induction bs with
  | nil => intro file; simp [writeLoop]
  | cons b bs ih =>
    intro file
    simp [writeLoop, ih, recordBytes, List.append_assoc]

/-- The writer's byte stream is the header layout followed by the record
layout of each block in source order. -/
lemma write_data_bytes (c : ChunkStream) :
    write_data c = headerBytes c.origin c.size ++ (c.blocks.map recordBytes).flatten := by
  unfold write_data headerBytes
  rw [writeLoop_eq]
  simp [List.append_assoc]

/-- Total length of the flattened record bytes: eight per block. -/
lemma records_length (bs : List Block) :
    ((bs.map recordBytes).flatten).length = 8 * bs.length := by
  induction bs with
  | nil => simp
  | cons b bs ih => simp [recordBytes, toLe4, ih]; ring

/-- The header layout occupies 28 bytes: 2 + 2 + 3 * 4 + 3 * 4. -/
lemma headerBytes_length (origin : Coordinate) (size : Size) :
    (headerBytes origin size).length = 28 := by
  simp [headerBytes, toLe2, toLe4, toLe4i]

/-- C6 counterexample: the header the writer emits is 28 bytes, not the 20
bytes the claim states -- already on the empty region at the origin the
whole output is 28 bytes long. -/
theorem C6_header_not_20_bytes :
    (write_data (ChunkStream.mk ⟨0, 0, 0⟩ ⟨0, 0, 0⟩ [])).length ≠ 20 := by
  decide

/-- C6 (amended): the writer emits exactly, in order, the signature, the
version, the origin as three little-endian i32, the size as three
little-endian u32 (a 28-byte header: 2 + 2 + 12 + 12), then one 8-byte
record (id then modifier, little-endian) per block in source order, and
nothing else. -/
theorem C6_writer_layout (c : ChunkStream) :
    write_data c =
      headerBytes c.origin c.size ++ (c.blocks.map recordBytes).flatten ∧
    (headerBytes c.origin c.size).length = 28 ∧
    (write_data c).length = 28 + 8 * c.blocks.length := by
  refine ⟨write_data_bytes c, headerBytes_length _ _, ?_⟩
  rw [write_data_bytes, List.length_append, headerBytes_length, records_length]

/-- A stream that begins with the current signature and version passes the
library header check, leaving the rest of the stream. -/
lemma check_data_metadata_prefix (rest : List Nat) :
    check_data_metadata (toLe2 MAGIC_NUMBER ++ (toLe2 VERSION ++ rest)) =
      .ok rest := by
  unfold check_data_metadata
  rw [read_u16_toLe2 MAGIC_NUMBER (by decide) (toLe2 VERSION ++ rest)]
  simp only [ne_eq, not_true_eq_false, if_false, ite_false, if_neg]
  rw [read_u16_toLe2 VERSION (by decide) rest]
  simp

/-- Decoding a stream that begins with a well-formed header for an in-range
origin and size succeeds and yields a fresh reader over the remaining
bytes. -/
lemma read_data_header (origin : Coordinate) (size : Size) (rest : List Nat)
    (hx1 : -2147483648 ≤ origin.x) (hx2 : origin.x < 2147483648)
    (hy1 : -2147483648 ≤ origin.y) (hy2 : origin.y < 2147483648)
    (hz1 : -2147483648 ≤ origin.z) (hz2 : origin.z < 2147483648)
    (hsx : size.x < 4294967296) (hsy : size.y < 4294967296)
    (hsz : size.z < 4294967296) :
    read_data (headerBytes origin size ++ rest) =
      .ok ⟨rest, 0, origin, size⟩ := by
  have hshape : headerBytes origin size ++ rest =
      toLe2 MAGIC_NUMBER ++ (toLe2 VERSION ++ (toLe4i origin.x ++ (toLe4i origin.y ++
        (toLe4i origin.z ++ (toLe4 size.x ++ (toLe4 size.y ++ (toLe4 size.z ++ rest))))))) := by
    simp [headerBytes, List.append_assoc]
  unfold read_data
  rw [hshape, check_data_metadata_prefix]
  simp only []
  rw [read_i32_toLe4i origin.x hx1 hx2]
  simp only []
  rw [read_i32_toLe4i origin.y hy1 hy2]
  simp only []
  rw [read_i32_toLe4i origin.z hz1 hz2]
  simp only []
  rw [read_u32_toLe4 size.x hsx]
  simp only []
  rw [read_u32_toLe4 size.y hsy]
  simp only []
  rw [read_u32_toLe4 size.z hsz]
  simp [BlockReader.new]

/-- A reader with an exhausted stream steps to the natural end without
changing state. -/
lemma next_of_nil (s : BlockReader) (h : s.reader = []) :
    s.next = (Step.done, s) := by
  unfold BlockReader.next
  rw [h]

/-- Driving a reader whose remaining bytes are exactly the record bytes of a
block list (with in-range fields, non-degenerate size divisors, and no index
wrap over the list) produces precisely the flattened (coordinate, block)
pairs of that list, then ends. -/
lemma runReader_records (bs : List Block) :
    ∀ (s : BlockReader) (fuel : Nat),
    s.reader = (bs.map recordBytes).flatten →
    (∀ b ∈ bs, b.id < 4294967296 ∧ b.modifier < 4294967296) →
    s.size.x ≠ 0 → s.size.z ≠ 0 →
    s.index + bs.length ≤ 4294967296 →
    bs.length < fuel →
    runReader fuel s = (pairsFrom s.origin s.size s.index bs, Step.done) := by
  induction bs with
  | nil =>
    intro s fuel hr hv hx hz hi hf
    obtain ⟨f, rfl⟩ : ∃ f, fuel = f + 1 := ⟨fuel - 1, by omega⟩
    simp only [List.map_nil, List.flatten_nil] at hr
    simp [runReader, next_of_nil s hr, pairsFrom]
  | cons b bs ih =>
    intro s fuel hr hv hx hz hi hf
    obtain ⟨f, rfl⟩ : ∃ f, fuel = f + 1 := ⟨fuel - 1, by omega⟩
    obtain ⟨bid, bmod⟩ := b
    have hb := hv ⟨bid, bmod⟩ (List.mem_cons_self _ _)
    simp only at hb
    rcases s with ⟨rd, idx, og, sz⟩
    simp only at hr hx hz hi ⊢
    have hrd : rd = bid % 256 :: bid / 256 % 256 :: bid / 65536 % 256 ::
        bid / 16777216 % 256 :: bmod % 256 :: bmod / 256 % 256 ::
        bmod / 65536 % 256 :: bmod / 16777216 % 256 ::
        (bs.map recordBytes).flatten := by
      simpa [recordBytes, toLe4] using hr
    subst hrd
    have hid : bid % 256 + 256 * (bid / 256 % 256) + 65536 * (bid / 65536 % 256) +
        16777216 * (bid / 16777216 % 256) = bid := by omega
    have hmod : bmod % 256 + 256 * (bmod / 256 % 256) + 65536 * (bmod / 65536 % 256) +
        16777216 * (bmod / 16777216 % 256) = bmod := by omega
    have hstep : BlockReader.next ⟨bid % 256 :: bid / 256 % 256 :: bid / 65536 % 256 ::
        bid / 16777216 % 256 :: bmod % 256 :: bmod / 256 % 256 ::
        bmod / 65536 % 256 :: bmod / 16777216 % 256 ::
        (bs.map recordBytes).flatten, idx, og, sz⟩ =
        (Step.item (og.add ((sz.index_to_offset idx).toCoordinate)) ⟨bid, bmod⟩,
          ⟨(bs.map recordBytes).flatten, (idx + 1) % 4294967296, og, sz⟩) := by
      simp [BlockReader.next, hx, hz, hid, hmod]
    have hrec : runReader f ⟨(bs.map recordBytes).flatten, (idx + 1) % 4294967296, og, sz⟩ =
        (pairsFrom og sz ((idx + 1) % 4294967296) bs, Step.done) := by
      apply ih
      · rfl
      · intro b hbmem
        exact hv b (List.mem_cons_of_mem _ hbmem)
      · exact hx
      · exact hz
      · show (idx + 1) % 4294967296 + bs.length ≤ 4294967296
        simp only [List.length_cons] at hi
        omega
      · simp only [List.length_cons] at hf
        omega
    have htail : pairsFrom og sz ((idx + 1) % 4294967296) bs =
        pairsFrom og sz (idx + 1) bs := by
      rcases bs with _ | ⟨b2, bs2⟩
      · simp [pairsFrom]
      · have : (idx + 1) % 4294967296 = idx + 1 := by
          apply Nat.mod_eq_of_lt
          simp only [List.length_cons] at hi
          omega
        rw [this]
    simp only [runReader, hstep, hrec, htail, pairsFrom]

/-- C1: round trip.  For every region (in-range origin and size, volume
fitting a u32 as the data model requires) and every block sequence of
length equal to the volume, decoding the writer's byte stream yields the
same origin, the same size, and the same (coordinate, block) sequence in
the same order, then ends cleanly. -/
theorem C1_round_trip (c : ChunkStream)
    (hox1 : -2147483648 ≤ c.origin.x) (hox2 : c.origin.x < 2147483648)
    (hoy1 : -2147483648 ≤ c.origin.y) (hoy2 : c.origin.y < 2147483648)
    (hoz1 : -2147483648 ≤ c.origin.z) (hoz2 : c.origin.z < 2147483648)
    (hsx : c.size.x < 4294967296) (hsy : c.size.y < 4294967296)
    (hsz : c.size.z < 4294967296)
    (hb : ∀ b ∈ c.blocks, b.id < 4294967296 ∧ b.modifier < 4294967296)
    (hlen : c.blocks.length = c.size.volume)
    (hvol : c.size.volume < 4294967296) :
    ∃ r, read_data (write_data c) = .ok r ∧ r.origin = c.origin ∧
      r.size = c.size ∧ readAll r = (c.pairs, Step.done) := by
  refine ⟨⟨(c.blocks.map recordBytes).flatten, 0, c.origin, c.size⟩, ?_, rfl, rfl, ?_⟩
  · rw [write_data_bytes]
    exact read_data_header c.origin c.size _ hox1 hox2 hoy1 hoy2 hoz1 hoz2 hsx hsy hsz
  · unfold readAll ChunkStream.pairs
    rcases Nat.eq_zero_or_pos c.size.volume with h0 | hpos
    · have hnil : c.blocks = [] := by
        apply List.eq_nil_of_length_eq_zero
        omega
      simp [hnil, runReader, BlockReader.next, pairsFrom]
    · have hx : c.size.x ≠ 0 := by
        intro h
        simp [Size.volume, h] at hpos
      have hz : c.size.z ≠ 0 := by
        intro h
        simp [Size.volume, h] at hpos
      exact runReader_records c.blocks _ _ rfl hb hx hz (by simpa [hlen] using hvol.le)
        (by rw [records_length]; omega)

/-- Witness for C1: the round-trip theorem applied to a concrete two-block
region of size (1, 2, 1) at origin (1, -2, 3). -/
theorem C1_round_trip_witness :
    ∃ r, read_data (write_data (ChunkStream.mk ⟨1, -2, 3⟩ ⟨1, 2, 1⟩ [⟨7, 1⟩, ⟨8, 2⟩])) = .ok r ∧
      r.origin = Coordinate.mk 1 (-2) 3 ∧ r.size = Size.mk 1 2 1 ∧
      readAll r = ((ChunkStream.mk ⟨1, -2, 3⟩ ⟨1, 2, 1⟩ [⟨7, 1⟩, ⟨8, 2⟩]).pairs, Step.done) :=
  C1_round_trip (ChunkStream.mk ⟨1, -2, 3⟩ ⟨1, 2, 1⟩ [⟨7, 1⟩, ⟨8, 2⟩])
    (by decide) (by decide) (by decide) (by decide) (by decide) (by decide)
    (by decide) (by decide) (by decide) (by decide) (by decide) (by decide)

/-- C3 counterexample: decoding the written scenario stream does not yield
the order the claim lists -- the claim places block 2 at (11, 20, 30), but
z is the innermost axis, so the second record lands at (10, 20, 31). -/
theorem C3_claimed_order_false :
    (read_data (write_data chunkC3)).toOption.map (fun r => (readAll r).1) ≠
      some [(⟨10, 20, 30⟩, ⟨1, 0⟩), (⟨11, 20, 30⟩, ⟨2, 0⟩),
            (⟨10, 20, 31⟩, ⟨3, 0⟩), (⟨11, 20, 31⟩, ⟨4, 0⟩)] := by
  decide

/-- C3 (amended): writing blocks 1 to 4 over the scenario region and
decoding yields, in order, (10,20,30) block 1, (10,20,31) block 2,
(11,20,30) block 3, (11,20,31) block 4 -- the y-outer, x-middle, z-inner
order -- with the origin and size preserved and a clean end. -/
theorem C3_decoded_order :
    (read_data (write_data chunkC3)).toOption.map
        (fun r => (r.origin, r.size, readAll r)) =
      some (⟨10, 20, 30⟩, ⟨2, 1, 2⟩,
        ([(⟨10, 20, 30⟩, ⟨1, 0⟩), (⟨10, 20, 31⟩, ⟨2, 0⟩),
          (⟨11, 20, 30⟩, ⟨3, 0⟩), (⟨11, 20, 31⟩, ⟨4, 0⟩)], Step.done)) := by
  rfl

/-- A 1-3 byte fragment at a record boundary: the id read fails with the
truncated-data error and the fragment is consumed. -/
lemma next_short (s : BlockReader) (h1 : s.reader ≠ []) (h2 : s.reader.length < 4) :
    s.next = (Step.error BodyError.truncatedData, { s with reader := [] }) := by
  rcases s with ⟨rd, idx, og, sz⟩
  simp only at h1 h2 ⊢
  rcases rd with _ | ⟨a0, rd⟩
  · simp at h1
  rcases rd with _ | ⟨a1, rd⟩
  · simp [BlockReader.next]
  rcases rd with _ | ⟨a2, rd⟩
  · simp [BlockReader.next]
  rcases rd with _ | ⟨a3, rd⟩
  · simp [BlockReader.next]
  · simp at h2
    omega

/-- A 4-7 byte fragment: the id read succeeds but the modifier read hits the
end of the stream, an unexpected-eof error, consuming the fragment. -/
lemma next_mid (s : BlockReader) (h1 : 4 ≤ s.reader.length) (h2 : s.reader.length < 8) :
    s.next = (Step.error BodyError.unexpectedEof, { s with reader := [] }) := by
  rcases s with ⟨rd, idx, og, sz⟩
  simp only at h1 h2 ⊢
  rcases rd with _ | ⟨a0, rd⟩
  · simp at h1
  rcases rd with _ | ⟨a1, rd⟩
  · simp at h1
  rcases rd with _ | ⟨a2, rd⟩
  · simp at h1
  rcases rd with _ | ⟨a3, rd⟩
  · simp at h1
  rcases rd with _ | ⟨a4, rd⟩
  · simp [BlockReader.next]
  rcases rd with _ | ⟨a5, rd⟩
  · simp [BlockReader.next]
  rcases rd with _ | ⟨a6, rd⟩
  · simp [BlockReader.next]
  rcases rd with _ | ⟨a7, rd⟩
  · simp [BlockReader.next]
  · simp at h2
    omega

/-- With a full record available and a degenerate size (zero x or z), the
step reaches the offset divisions and panics with a division by zero. -/
lemma next_div (s : BlockReader) (h1 : 8 ≤ s.reader.length)
    (hdz : s.size.x = 0 ∨ s.size.z = 0) :
    s.next = (Step.divByZero, { s with reader := s.reader.drop 8 }) := by
  rcases s with ⟨rd, idx, og, sz⟩
  simp only at h1 hdz ⊢
  rcases rd with _ | ⟨a0, rd⟩
  · simp at h1
  rcases rd with _ | ⟨a1, rd⟩
  · simp at h1
  rcases rd with _ | ⟨a2, rd⟩
  · simp at h1
  rcases rd with _ | ⟨a3, rd⟩
  · simp at h1
  rcases rd with _ | ⟨a4, rd⟩
  · simp at h1
  rcases rd with _ | ⟨a5, rd⟩
  · simp at h1
  rcases rd with _ | ⟨a6, rd⟩
  · simp at h1
  rcases rd with _ | ⟨a7, rd⟩
  · simp at h1
  · simp [BlockReader.next, hdz]

/-- With a full record available and non-degenerate divisors, the step
produces an item at the flattened coordinate of the current index, consumes
eight bytes and increments the index with u32 wrapping. -/
lemma next_item (s : BlockReader) (hx : s.size.x ≠ 0) (hz : s.size.z ≠ 0)
    (h1 : 8 ≤ s.reader.length) :
    ∃ b : Block,
      s.next = (Step.item (s.origin.add ((s.size.index_to_offset s.index).toCoordinate)) b,
        { s with reader := s.reader.drop 8, index := (s.index + 1) % 4294967296 }) := by
  rcases s with ⟨rd, idx, og, sz⟩
  simp only at hx hz h1 ⊢
  rcases rd with _ | ⟨a0, rd⟩
  · simp at h1
  rcases rd with _ | ⟨a1, rd⟩
  · simp at h1
  rcases rd with _ | ⟨a2, rd⟩
  · simp at h1
  rcases rd with _ | ⟨a3, rd⟩
  · simp at h1
  rcases rd with _ | ⟨a4, rd⟩
  · simp at h1
  rcases rd with _ | ⟨a5, rd⟩
  · simp at h1
  rcases rd with _ | ⟨a6, rd⟩
  · simp at h1
  rcases rd with _ | ⟨a7, rd⟩
  · simp at h1
  · exact ⟨⟨a0 + 256 * a1 + 65536 * a2 + 16777216 * a3,
      a4 + 256 * a5 + 65536 * a6 + 16777216 * a7⟩,
      by simp [BlockReader.next, hx, hz]⟩

/-- One reader step never changes the origin or the size captured at
construction. -/
lemma next_frame (s : BlockReader) :
    s.next.2.origin = s.origin ∧ s.next.2.size = s.size := by
  rcases Nat.lt_or_ge s.reader.length 4 with h | h
  · by_cases hnil : s.reader = []
    · rw [next_of_nil s hnil]
      exact ⟨rfl, rfl⟩
    · rw [next_short s hnil h]
      exact ⟨rfl, rfl⟩
  · rcases Nat.lt_or_ge s.reader.length 8 with h8 | h8
    · rw [next_mid s h h8]
      exact ⟨rfl, rfl⟩
    · by_cases hdz : s.size.x = 0 ∨ s.size.z = 0
      · rw [next_div s h8 hdz]
        exact ⟨rfl, rfl⟩
      · push_neg at hdz
        obtain ⟨b, hstep⟩ := next_item s hdz.1 hdz.2 h8
        rw [hstep]
        exact ⟨rfl, rfl⟩

/-- Shape of a full reader run over a body of length 8k + r (r < 8), for a
size with nonzero divisors: exactly k items are produced, then the run ends
naturally when r = 0, with the truncated-data error when 1 <= r <= 3, and
with the unexpected-eof error when 4 <= r <= 7. -/
lemma runReader_shape (k : Nat) :
    ∀ (s : BlockReader) (fuel r : Nat),
    s.size.x ≠ 0 → s.size.z ≠ 0 →
    s.reader.length = 8 * k + r → r < 8 → k < fuel →
    (runReader fuel s).1.length = k ∧
    (runReader fuel s).2 =
      (if r = 0 then Step.done
       else if r < 4 then Step.error BodyError.truncatedData
       else Step.error BodyError.unexpectedEof) := by
  induction k with
  | zero =>
    intro s fuel r hx hz hlen hr hf
    obtain ⟨f, rfl⟩ : ∃ f, fuel = f + 1 := ⟨fuel - 1, by omega⟩
    by_cases h0 : r = 0
    · have hnil : s.reader = [] := by
        apply List.eq_nil_of_length_eq_zero
        omega
      simp [runReader, next_of_nil s hnil, h0]
    · by_cases h4 : r < 4
      · have hstep := next_short s (by intro hnil; rw [hnil] at hlen; simp at hlen; omega)
          (by omega)
        simp [runReader, hstep, h0, h4]
      · have hstep := next_mid s (by omega) (by omega)
        simp [runReader, hstep, h0, h4]
  | succ k ih =>
    intro s fuel r hx hz hlen hr hf
    obtain ⟨f, rfl⟩ : ∃ f, fuel = f + 1 := ⟨fuel - 1, by omega⟩
    obtain ⟨b, hstep⟩ := next_item s hx hz (by omega)
    have h2 := ih { s with reader := s.reader.drop 8, index := (s.index + 1) % 4294967296 }
      f r hx hz (by simp; omega) hr (by omega)
    rw [runReader]
    rw [hstep]
    simp only [List.length_cons]
    exact ⟨by rw [h2.1], h2.2⟩

/-- C5 (amended): truncation semantics for a reader whose size has nonzero
x and z.  A body of 8k + r bytes with r in 1..3 yields its k whole records
then the truncated-data error; r in 4..7 yields the unexpected-eof error
mid-record; r = 0 decodes all k records cleanly and ends without error no
matter how k compares to the volume; k = r = 0 is the natural end producing
no item. -/
theorem C5_truncation_semantics (s : BlockReader) (k r : Nat)
    (hx : s.size.x ≠ 0) (hz : s.size.z ≠ 0)
    (hlen : s.reader.length = 8 * k + r) (hr : r < 8) :
    (readAll s).1.length = k ∧
    (readAll s).2 =
      (if r = 0 then Step.done
       else if r < 4 then Step.error BodyError.truncatedData
       else Step.error BodyError.unexpectedEof) :=
  runReader_shape k s (s.reader.length + 1) r hx hz hlen hr (by omega)

/-- Witness for C5: an 11-byte body (one whole record and a 3-byte
fragment) over a unit-size reader yields one item and the truncated-data
error. -/
theorem C5_truncation_semantics_witness :
    (readAll ⟨[9, 0, 0, 0, 2, 0, 0, 0, 5, 5, 5], 0, ⟨0, 0, 0⟩, ⟨1, 1, 1⟩⟩).1.length = 1 ∧
    (readAll ⟨[9, 0, 0, 0, 2, 0, 0, 0, 5, 5, 5], 0, ⟨0, 0, 0⟩, ⟨1, 1, 1⟩⟩).2 =
      (if 3 = 0 then Step.done
       else if 3 < 4 then Step.error BodyError.truncatedData
       else Step.error BodyError.unexpectedEof) :=
  C5_truncation_semantics ⟨[9, 0, 0, 0, 2, 0, 0, 0, 5, 5, 5], 0, ⟨0, 0, 0⟩, ⟨1, 1, 1⟩⟩
    1 3 (by decide) (by decide) (by decide) (by decide)

/-- A decoded stream with size (0, 1, 1) and an 8-byte body: one whole
record is present (an exact multiple of 8), yet the run produces no item
and aborts with the division-by-zero panic instead of decoding cleanly. -/
theorem C5_multiple_of_8_not_clean :
    ∃ r0 : BlockReader,
      read_data [0xf9, 0xa3, 0x00, 0x01, 0, 0, 0, 0, 0, 0, 0, 0, 0, 0, 0, 0,
        0, 0, 0, 0, 1, 0, 0, 0, 1, 0, 0, 0, 0, 0, 0, 0, 0, 0, 0, 0] = .ok r0 ∧
      r0.reader.length = 8 ∧
      readAll r0 = ([], Step.divByZero) :=
  ⟨⟨[0, 0, 0, 0, 0, 0, 0, 0], 0, ⟨0, 0, 0⟩, ⟨0, 1, 1⟩⟩, rfl, rfl, rfl⟩

/-- After a step that ends the stream or fails, the remaining stream is
empty. -/
lemma next_terminal_nil (s : BlockReader)
    (h : s.next.1 = Step.done ∨ ∃ e, s.next.1 = Step.error e) :
    s.next.2.reader = [] := by
  rcases Nat.lt_or_ge s.reader.length 4 with h4 | h4
  · by_cases hnil : s.reader = []
    · rw [next_of_nil s hnil]
      exact hnil
    · rw [next_short s hnil h4]
  · rcases Nat.lt_or_ge s.reader.length 8 with h8 | h8
    · rw [next_mid s h4 h8]
    · exfalso
      by_cases hdz : s.size.x = 0 ∨ s.size.z = 0
      · rw [next_div s h8 hdz] at h
        simp at h
      · push_neg at hdz
        obtain ⟨b, hstep⟩ := next_item s hdz.1 hdz.2 h8
        rw [hstep] at h
        simp at h

/-- An empty stream stays empty under any number of steps. -/
lemma nextN_nil (n : Nat) : ∀ t : BlockReader, t.reader = [] →
    (nextN n t).reader = [] := by
  induction n with
  | zero => intro t h; exact h
  | succ n ih =>
    intro t h
    rw [nextN, next_of_nil t h]
    exact ih t h

/-- C7: the decoded sequence is not restartable.  Once a step produces the
natural end of stream or an error, no later step ever produces another
(coordinate, block) item. -/
theorem C7_terminal_no_items (s : BlockReader)
    (h : s.next.1 = Step.done ∨ ∃ e, s.next.1 = Step.error e) :
    ∀ (n : Nat) (c : Coordinate) (b : Block),
      ((nextN n s.next.2).next).1 ≠ Step.item c b := by
  intro n c b
  have h0 : s.next.2.reader = [] := next_terminal_nil s h
  have h1 : (nextN n s.next.2).reader = [] := nextN_nil n _ h0
  rw [next_of_nil _ h1]
  simp

/-- Witness for C7: an exhausted concrete reader, two further steps on. -/
theorem C7_terminal_no_items_witness :
    ((nextN 2 (BlockReader.next ⟨[], 0, ⟨0, 0, 0⟩, ⟨1, 1, 1⟩⟩).2).next).1 ≠
      Step.item ⟨0, 0, 0⟩ ⟨5, 5⟩ :=
  C7_terminal_no_items ⟨[], 0, ⟨0, 0, 0⟩, ⟨1, 1, 1⟩⟩ (Or.inl rfl) 2 ⟨0, 0, 0⟩ ⟨5, 5⟩

/-- C9 counterexample: read_data accepts a header whose size is (1, 1, 0);
on the following non-empty body the very first step reaches the offset
divisions with a zero divisor (the division-by-zero panic). -/
theorem C9_zero_size_divides :
    ∃ r0 : BlockReader,
      read_data [0xf9, 0xa3, 0x00, 0x01, 0, 0, 0, 0, 0, 0, 0, 0, 0, 0, 0, 0,
        1, 0, 0, 0, 1, 0, 0, 0, 0, 0, 0, 0, 0, 0, 0, 0, 0, 0, 0, 0] = .ok r0 ∧
      r0.size.z = 0 ∧ r0.reader ≠ [] ∧ r0.next.1 = Step.divByZero :=
  ⟨⟨[0, 0, 0, 0, 0, 0, 0, 0], 0, ⟨0, 0, 0⟩, ⟨1, 1, 0⟩⟩, rfl, rfl, by decide, rfl⟩

/-- C9 (amended): when the decoded size has nonzero x and z components, no
reader step ever divides by zero. -/
theorem C9_nonzero_size_no_division_by_zero (s : BlockReader)
    (hx : s.size.x ≠ 0) (hz : s.size.z ≠ 0) :
    s.next.1 ≠ Step.divByZero := by
  rcases Nat.lt_or_ge s.reader.length 4 with h4 | h4
  · by_cases hnil : s.reader = []
    · rw [next_of_nil s hnil]
      simp
    · rw [next_short s hnil h4]
      simp
  · rcases Nat.lt_or_ge s.reader.length 8 with h8 | h8
    · rw [next_mid s h4 h8]
      simp
    · obtain ⟨b, hstep⟩ := next_item s hx hz h8
      rw [hstep]
      simp

/-- Witness for C9: the amended theorem applied to a unit-size reader. -/
theorem C9_nonzero_size_no_division_by_zero_witness :
    (BlockReader.next ⟨[7, 7, 7, 7, 7, 7, 7, 7], 0, ⟨0, 0, 0⟩, ⟨1, 1, 1⟩⟩).1 ≠
      Step.divByZero :=
  C9_nonzero_size_no_division_by_zero ⟨[7, 7, 7, 7, 7, 7, 7, 7], 0, ⟨0, 0, 0⟩, ⟨1, 1, 1⟩⟩
    (by decide) (by decide)

/-- C10: the origin, size and bound getters are constant across any number
of reader steps -- a step mutates only the record index and the remaining
stream. -/
theorem C10_getters_constant (n : Nat) : ∀ s : BlockReader,
    (nextN n s).origin = s.origin ∧ (nextN n s).size = s.size ∧
      (nextN n s).bound = s.bound := by
  induction n with
  | zero => intro s; exact ⟨rfl, rfl, rfl⟩
  | succ n ih =>
    intro s
    have hf := next_frame s
    have hn := ih s.next.2
    rw [nextN]
    refine ⟨hn.1.trans hf.1, hn.2.1.trans hf.2, ?_⟩
    rw [hn.2.2]
    unfold BlockReader.bound
    rw [hf.1, hf.2]

/-- C4: the binary's own header check (src/main.rs `check_metadata`) aborts
the process with a Rust panic on a corrupted signature and on both version
mismatches -- not the structured recoverable error the claim requires -- 
while the library check (src/lib.rs `check_data_metadata`) returns the
structured FormatMismatch / OutdatedFile / OutdatedProgram errors on the
same inputs. -/
theorem C4_check_metadata_aborts :
    check_metadata [0, 0, 0, 1] = MetaCheck.abort "Invalid file format" ∧
    check_metadata [0xf9, 0xa3, 0xff, 0] = MetaCheck.abort "Outdated file format" ∧
    check_metadata [0xf9, 0xa3, 1, 1] = MetaCheck.abort "Outdated program" ∧
    check_data_metadata [0, 0, 0, 1] = .error DataMetaError.invalidFormat ∧
    check_data_metadata [0xf9, 0xa3, 0xff, 0] = .error DataMetaError.outdatedFile ∧
    check_data_metadata [0xf9, 0xa3, 1, 1] = .error DataMetaError.outdatedProgram :=
  ⟨rfl, rfl, rfl, rfl, rfl, rfl⟩

/-- C8 counterexample: the string "1,2,3,4" has a fourth comma-separated
component, which the claim says must be rejected, yet the parser accepts
it and returns (1, 2, 3). -/
theorem C8_extra_components_accepted :
    parse_coordinate ("1,2,3,4".toList) = some ⟨1, 2, 3⟩ := by
  rfl

/-- Splitting never produces an empty list of parts. -/
lemma splitComma_ne_nil (s : List Char) : splitComma s ≠ [] := by
  induction s with
  | nil => simp [splitComma]
  | cons c cs ih =>
    by_cases hc : c = ','
    · simp [splitComma, hc]
    · rcases hsp : splitComma cs with _ | ⟨p, ps⟩
      · exact absurd hsp ih
      · simp [splitComma, hc, hsp]

/-- Appending a comma and a suffix appends the suffix's parts: the comma
closes the last part of the prefix. -/
lemma splitComma_append (s t : List Char) :
    splitComma (s ++ ',' :: t) = splitComma s ++ splitComma t := by
  induction s with
  | nil => simp [splitComma]
  | cons c cs ih =>
    by_cases hc : c = ','
    · simp [splitComma, hc, ih]
    · rcases hsp : splitComma cs with _ | ⟨p, ps⟩
      · exact absurd hsp (splitComma_ne_nil cs)
      · rw [List.cons_append]
        simp only [splitComma, hc, if_neg, ih, hsp]
        simp [hsp, List.cons_append]

/-- C8 (amended): the parser succeeds exactly when the split yields at
least three parts whose first three parse as i32 -- and appending a comma
and anything after a successfully parsed string is accepted unchanged:
extra comma-separated components are ignored, not rejected. -/
theorem C8_parse_coordinate_characterization :
    (∀ s : List Char, (parse_coordinate s).isSome ↔
      ∃ p0 p1 p2 rest, splitComma s = p0 :: p1 :: p2 :: rest ∧
        (parseI32 p0).isSome ∧ (parseI32 p1).isSome ∧ (parseI32 p2).isSome) ∧
    (∀ (s t : List Char) (v : Coordinate),
      parse_coordinate s = some v →
      parse_coordinate (s ++ ',' :: t) = some v) := by
  constructor
  · intro s
    unfold parse_coordinate
    rcases hsp : splitComma s with _ | ⟨p0, l1⟩
    · exact absurd hsp (splitComma_ne_nil s)
    rcases l1 with _ | ⟨p1, l2⟩
    · rcases h0 : parseI32 p0 with _ | x0 <;> simp [h0]
    rcases l2 with _ | ⟨p2, rest⟩
    · rcases h0 : parseI32 p0 with _ | x0 <;>
        rcases h1 : parseI32 p1 with _ | x1 <;> simp [h0, h1]
    · rcases h0 : parseI32 p0 with _ | x0 <;>
        rcases h1 : parseI32 p1 with _ | x1 <;>
        rcases h2 : parseI32 p2 with _ | x2 <;>
        simp [h0, h1, h2] <;>
        exact ⟨p0, p1, p2, ⟨rfl, rfl, rfl⟩, by simp [h0], by simp [h1], by simp [h2]⟩
  · intro s t v hv
    unfold parse_coordinate at hv ⊢
    rw [splitComma_append]
    rcases hsp : splitComma s with _ | ⟨p0, l1⟩
    · exact absurd hsp (splitComma_ne_nil s)
    rw [hsp] at hv
    rcases l1 with _ | ⟨p1, l2⟩
    · rcases h0 : parseI32 p0 with _ | x0 <;> simp [h0] at hv
    rcases l2 with _ | ⟨p2, rest⟩
    · rcases h0 : parseI32 p0 with _ | x0 <;>
        rcases h1 : parseI32 p1 with _ | x1 <;> simp [h0, h1] at hv
    · rcases h0 : parseI32 p0 with _ | x0 <;>
        rcases h1 : parseI32 p1 with _ | x1 <;>
        rcases h2 : parseI32 p2 with _ | x2 <;>
        simp [h0, h1, h2] at hv <;> simp [h0, h1, h2, hv]

/-- Witness for C8: the second half applied to "1,2,3" with the extra
suffix "zz". -/
theorem C8_parse_coordinate_characterization_witness :
    parse_coordinate ("1,2,3".toList ++ ',' :: "zz".toList) = some ⟨1, 2, 3⟩ :=
  C8_parse_coordinate_characterization.2 ("1,2,3".toList) ("zz".toList) ⟨1, 2, 3⟩ (by rfl)
